import Mathlib

/-!
Shallow embedding of the transcription backend of `browser-tab-recording`
(`src/backend/websocket_backend.py`, `src/backend/post_processing.py`,
`src/backend/backend.py`).

Conventions of the embedding:
* raw bytes are modelled as `List Nat` (one `Nat` per byte);
* the append-only log file of a session is carried inside the session record
  (`logFile`), since there is exactly one log file per session;
* ambient wall-clock reads (`datetime.now()` / `datetime.utcnow()`) are
  modelled by an explicit clock `Nat → String` together with a tick counter
  that is advanced at every call site, mirroring one clock sample per call;
* a fallible file write is modelled by an explicit `writeOk : Bool` input:
  `false` means the `open`/`write` call raises, `true` means it succeeds.
-/

/-- One raw audio chunk: a byte string, one `Nat` per byte. -/
abbrev Chunk := List Nat

/-- One finalized transcript line, as built by
`RecordingSession.add_transcript` in `websocket_backend.py` (fields
`speaker`, `text`, `language`, `timestamp`). -/
structure TranscriptLine where
  speaker : String
  text : String
  language : String
  timestamp : String
  deriving Repr, DecidableEq

/-- The `RecordingSession` class of `websocket_backend.py`.  `logFile` is the
content of the append-only file at `self.filepath`; it lives in the record
because the class owns exactly that one file. -/
structure RecordingSession where
  session_id : String
  chunks : List Chunk
  transcripts : List TranscriptLine
  total_bytes : Nat
  start_time : Nat
  filepath : String
  logFile : List Nat
  deriving Repr, DecidableEq

namespace RecordingSession

/-- The `RecordingSession.__init__` constructor: empty chunk list, empty
transcript list, zero byte counter, and a not-yet-written log file (the file
is created lazily by the first append). -/
def init (session_id : String) (start_time : Nat) : RecordingSession :=
  { session_id := session_id
    chunks := []
    transcripts := []
    total_bytes := 0
    start_time := start_time
    filepath := "received_recordings/recording_" ++ session_id ++ ".raw"
    logFile := [] }

/-- The `add_chunk` method.  The source appends the chunk to `self.chunks`
and adds its length to `self.total_bytes` BEFORE opening the log file, and
only then writes the chunk.  `writeOk` models whether that write succeeds;
the returned `Bool` is `true` when the method raised (write failure), in
which case the in-memory mutations have already happened but the log file is
unchanged. -/
def add_chunk (s : RecordingSession) (chunk_data : Chunk) (writeOk : Bool) :
    RecordingSession × Bool :=
  let s1 := { s with
    chunks := s.chunks ++ [chunk_data]
    total_bytes := s.total_bytes + chunk_data.length }
  if writeOk then
    ({ s1 with logFile := s1.logFile ++ chunk_data }, false)
  else
    (s1, true)

/-- The `add_transcript` method: append one line with the ambient timestamp
(`datetime.now().isoformat()`, modelled by the `timestamp` argument). -/
def add_transcript (s : RecordingSession) (speaker text language timestamp : String) :
    RecordingSession :=
  { s with transcripts := s.transcripts ++
      [{ speaker := speaker, text := text, language := language,
         timestamp := timestamp }] }

/-- The statistics record returned by `get_stats`.  `total_mb` and
`duration_seconds` are rounded to two decimals in the source (Python float
`round`); they are modelled over `ℚ` with mathematical rounding. -/
structure Stats where
  session_id : String
  chunks_received : Nat
  total_bytes : Nat
  total_mb : ℚ
  duration_seconds : ℚ
  filepath : String
  transcript_lines : Nat
  deriving Repr, DecidableEq

/-- Rounding to two decimal places over `ℚ`, the model of Python
`round(x, 2)`. -/
def round2 (q : ℚ) : ℚ := (round (q * 100) : ℤ) / 100

/-- The `get_stats` method; `now` models the `datetime.now()` sample used to
compute the duration (in whole seconds). -/
def get_stats (s : RecordingSession) (now : Nat) : Stats :=
  { session_id := s.session_id
    chunks_received := s.chunks.length
    total_bytes := s.total_bytes
    total_mb := round2 ((s.total_bytes : ℚ) / (1024 * 1024))
    duration_seconds := round2 ((now : ℚ) - (s.start_time : ℚ))
    filepath := s.filepath
    transcript_lines := s.transcripts.length }

/-- A whole run of successful ingestions: fold `add_chunk` (with every log
write succeeding) over a list of chunks. -/
def ingestAll (s : RecordingSession) (cs : List Chunk) : RecordingSession :=
  cs.foldl (fun acc c => (add_chunk acc c true).1) s

end RecordingSession

/-! ### Python string helpers used by the handlers -/

/-- Python `str.strip()`: drop whitespace from both ends. -/
def pyStrip (s : String) : String :=
  String.mk (((s.toList.dropWhile Char.isWhitespace).reverse.dropWhile
    Char.isWhitespace).reverse)

/-- Value of a nonempty all-digit character run, `none` otherwise. -/
def digitsVal : List Char → Option Nat
  | [] => none
  | cs => if cs.all Char.isDigit then
      some (cs.foldl (fun a c => a * 10 + (c.toNat - 48)) 0) else none

/-- Python `int(s)` on a string: strip whitespace, optional sign, decimal
digits; `none` models the `ValueError` raised on any other shape. -/
def pyIntOfString (s : String) : Option Int :=
  match (pyStrip s).toList with
  | '-' :: rest => (digitsVal rest).map (fun n => -(n : Int))
  | '+' :: rest => (digitsVal rest).map (fun n => (n : Int))
  | cs => (digitsVal cs).map (fun n => (n : Int))

/-- Python substring test `needle in hay`. -/
def containsSub (needle hay : String) : Bool :=
  decide (needle.toList <:+: hay.toList)

/-! ### Recognition worker: data model of provider responses
(`websocket_backend.py`, `start_stt_thread`) -/

/-- One word of a streaming result alternative.  `speaker_label = none`
models a word without the attribute; the source also treats a falsy (empty)
label as absent. -/
structure WordInfo where
  word : String
  speaker_label : Option String
  deriving Repr, DecidableEq

/-- One alternative of a streaming result.  `confidence = none` models a
missing attribute (floating-point confidence values are abstracted to
`Nat` ticks; no claim depends on their arithmetic). -/
structure SpeechAlt where
  transcript : String
  words : List WordInfo
  confidence : Option Nat
  deriving Repr, DecidableEq

/-- One result inside a streaming response. -/
structure RecResult where
  alternatives : List SpeechAlt
  is_final : Bool
  language_code : Option String
  deriving Repr, DecidableEq

/-- One streaming response from the provider. -/
structure SpeechResponse where
  results : List RecResult
  deriving Repr, DecidableEq

/-- The outbound `transcript` payload built for every processed result
(JSON sent to the client; the `ts` field carries the
`datetime.utcnow()` sample). -/
structure Payload where
  text : String
  final : Bool
  speaker : String
  language : String
  language_name : String
  confidence : Option Nat
  ts : String
  deriving Repr, DecidableEq

/-- Python truthiness of an optional speaker label: present and nonempty. -/
def truthyLabel : Option String → Bool
  | none => false
  | some s => s ≠ ""

/-- The list comprehension of line 201: the (truthy) speaker labels of the
words of the current alternative, in word order. -/
def collectTags (words : List WordInfo) : List String :=
  words.filterMap fun w =>
    match w.speaker_label with
    | some s => if s ≠ "" then some s else none
    | none => none

/-- First-seen key order of a list, the iteration order of a Python
`Counter` built from it (first occurrence wins, duplicates dropped). -/
def firstSeenKeys (l : List String) : List String :=
  l.foldl (fun acc x => if x ∈ acc then acc else acc ++ [x]) []

/-- Fold step behind `Counter.most_common(1)`: keep the current best key,
replace it only on a strictly greater count (so the earlier key wins
ties). -/
def bestTag (cnt : String → Nat) (b : String) : List String → String
  | [] => b
  | k :: ks => if cnt b < cnt k then bestTag cnt k ks else bestTag cnt b ks

/-- The value of `Counter(l).most_common(1)[0][0]`: among the keys of `l`
in first-seen order, the first one attaining the maximal count. -/
def mostCommonTag (l : List String) : Option String :=
  match firstSeenKeys l with
  | [] => none
  | k :: ks => some (bestTag (fun t => l.count t) k ks)

/-- Lines 199-203: derived speaker tag of one alternative, `none` when the
word list is empty or no word carries a truthy label. -/
def speakerTagOf (words : List WordInfo) : Option String :=
  match words with
  | [] => none
  | _ => mostCommonTag (collectTags words)

/-- Line 205: rendering of the derived tag, with the generic placeholder
for a falsy tag. -/
def speakerLabelOf : Option String → String
  | some s => if s ≠ "" then "Speaker " ++ s else "Speaker"
  | none => "Speaker"

/-- Python `s.startswith(pre)`. -/
def pyStartsWith (pre s : String) : Bool :=
  decide (pre.toList <+: s.toList)

/-- Lines 196-197: language display name from the detected language tag. -/
def languageNameOf (detected : String) : String :=
  if pyStartsWith "en" detected then "English"
  else if pyStartsWith "ja" detected then "Japanese"
  else detected

/-- Lines 188-225: processing of one result of one response.  A result with
no alternatives is skipped.  Otherwise the first alternative is read, a
transcript line is appended to the session exactly when the result is final
and its text is nonempty after stripping, and one outbound payload is
produced.  `clock`/`k` model the ambient clock: `add_transcript` samples
`datetime.now()` and the payload samples `datetime.utcnow()`. -/
def processRecResult (clock : Nat → String) (k : Nat) (s : RecordingSession)
    (r : RecResult) : RecordingSession × List Payload × Nat :=
  match r.alternatives.head? with
  | none => (s, [], k)
  | some alt =>
    let transcript := alt.transcript
    let detected_language := r.language_code.getD "en-US"
    let language_name := languageNameOf detected_language
    let speaker_label := speakerLabelOf (speakerTagOf alt.words)
    let confidence := if r.is_final then alt.confidence else none
    let sk :=
      if r.is_final = true ∧ pyStrip transcript ≠ "" then
        (s.add_transcript speaker_label transcript language_name (clock k), k + 1)
      else (s, k)
    let payload : Payload :=
      { text := transcript, final := r.is_final, speaker := speaker_label
        language := detected_language, language_name := language_name
        confidence := confidence, ts := clock sk.2 }
    (sk.1, [payload], sk.2 + 1)

/-- Lines 184-225: processing of the results of one response, in order
(a response with no results is skipped by the guard of line 185, which the
empty fold also models). -/
def processResults (clock : Nat → String) :
    Nat → RecordingSession → List RecResult →
    RecordingSession × List Payload × Nat
  | k, s, [] => (s, [], k)
  | k, s, r :: rest =>
    match processRecResult clock k s r with
    | (s1, outs1, k1) =>
      match processResults clock k1 s1 rest with
      | (s2, outs2, k2) => (s2, outs1 ++ outs2, k2)

/-- Processing of one whole response. -/
def processResponse (clock : Nat → String) (k : Nat) (s : RecordingSession)
    (resp : SpeechResponse) : RecordingSession × List Payload × Nat :=
  processResults clock k s resp.results

/-! ### Recognition worker: the retry loop of `start_stt_thread` -/

/-- Lines 233: classification of a raised error text — the silence timeout
signature recognized by the retry loop. -/
def isTimeoutError (e : String) : Bool :=
  containsSub "Audio Timeout" e || containsSub "OUT_OF_RANGE" e

/-- The streaming configuration built by `build_streaming_config`
(lines 100-121); only the fields the claims mention are carried. -/
structure StreamingConfig where
  sample_rate_hertz : Int
  audio_channel_count : Nat
  language_codes : List String
  recognition_model : String
  interim_results : Bool
  deriving Repr, DecidableEq

/-- The `build_streaming_config` function: fresh configuration for the given
sample rate, LINEAR16 mono, EN/JP, long model, interim results on. -/
def build_streaming_config (sample_rate : Int) : StreamingConfig :=
  { sample_rate_hertz := sample_rate
    audio_channel_count := 1
    language_codes := ["en-US", "ja-JP"]
    recognition_model := "long"
    interim_results := true }

/-- One element observed while iterating the provider response stream:
either a response, or a point where iterating/processing raises with the
given error text (the source has no per-response try/except, so such an
error escapes to the single handler of lines 230-238). -/
inductive StreamItem where
  | response (r : SpeechResponse)
  | broken (msg : String)
  deriving Repr, DecidableEq

/-- True when no element of the item list raises. -/
def noBroken (items : List StreamItem) : Bool :=
  items.all fun i =>
    match i with
    | .broken _ => false
    | .response _ => true

/-- One opening of the provider stream, abstracted: `consume` is the number
of Transfer Queue items the request generator pulled before the stream
ended, `items` is what the response iteration yielded, and `streamEnd` is
an error the stream iteration itself raised after `items` (`none` means the
stream closed cleanly). -/
structure Attempt where
  consume : Nat
  items : List StreamItem
  streamEnd : Option String
  deriving Repr, DecidableEq

/-- Iterating the responses of one stream attempt: responses are processed
in order until the first raising item; its error (or the final stream
error) is returned as the exception escaping the `for` loop of line 184. -/
def runItems (clock : Nat → String) :
    Nat → RecordingSession → List StreamItem → Option String →
    RecordingSession × List Payload × Nat × Option String
  | k, s, [], endE => (s, [], k, endE)
  | k, s, .broken m :: _, _ => (s, [], k, some m)
  | k, s, .response r :: rest, endE =>
    match processResponse clock k s r with
    | (s1, outs1, k1) =>
      match runItems clock k1 s1 rest endE with
      | (s2, outs2, k2, e) => (s2, outs1 ++ outs2, k2, e)

/-- How the worker loop of `start_stt_thread` ended. -/
inductive WorkerExit where
  | completed
  | terminated (msg : String)
  | running
  deriving Repr, DecidableEq

/-- Observable trace of one worker run: the queue items pulled per attempt
(in order), the queue items never pulled, the number of stream re-opens,
the outbound payloads, the final session, the configurations the attempts
were opened with, and how the loop ended. -/
structure WorkerTrace where
  taken : List (List (Option Chunk))
  remaining : List (Option Chunk)
  reopens : Nat
  outputs : List Payload
  session : RecordingSession
  configs : List StreamingConfig
  exit : WorkerExit
  deriving Repr, DecidableEq

/-- The `while True` loop of `start_stt_thread` (lines 158-238), driven by
the abstract attempt list.  Every iteration builds a fresh configuration
from the SAME `sample_rate`, pulls `consume` items off the SAME queue
(items already consumed are gone; the rest stay), and classifies the
escaping exception: the silence-timeout signature re-enters the loop
(`continue`), a clean close breaks with success, and any other error text
breaks the worker.  An exhausted attempt list models a still-running
worker. -/
def runWorker (clock : Nat → String) (sample_rate : Int) :
    Nat → RecordingSession → List (Option Chunk) → List Attempt → WorkerTrace
  | _, s, q, [] => ⟨[], q, 0, [], s, [], .running⟩
  | k, s, q, a :: rest =>
    let cfg := build_streaming_config sample_rate
    let taken := q.take a.consume
    let q1 := q.drop a.consume
    match runItems clock k s a.items a.streamEnd with
    | (s1, outs, _, none) => ⟨[taken], q1, 0, outs, s1, [cfg], .completed⟩
    | (s1, outs, k1, some m) =>
      if isTimeoutError m then
        let t := runWorker clock sample_rate k1 s1 q1 rest
        ⟨taken :: t.taken, t.remaining, t.reopens + 1, outs ++ t.outputs,
          t.session, cfg :: t.configs, t.exit⟩
      else ⟨[taken], q1, 0, outs, s1, [cfg], .terminated m⟩

/-- The zero-length filter of the request generator (lines 168-177): the
chunks actually sent to the provider from a queue prefix, stopping at the
`None` end marker and skipping empty chunks. -/
def genSent : List (Option Chunk) → List Chunk
  | [] => []
  | none :: _ => []
  | some c :: rest => if 0 < c.length then c :: genSent rest else genSent rest


/-! ### Network event loop: `handle_client` state and frame handlers -/

/-- The per-connection local state of `handle_client` (lines 288-296): the
session, the `recording_active` flag, the Transfer Queue handle (`none`
models `audio_q = None`; a queue element `none` is the end marker), the
negotiated sample rate, and whether a worker thread handle is held. -/
structure ConnState where
  session : RecordingSession
  recording_active : Bool
  audioQ : Option (List (Option Chunk))
  current_sample_rate : Int
  sttThread : Bool
  deriving Repr, DecidableEq

/-- Fresh connection state (lines 288-296): new session, inactive, no
queue, 48 kHz default. -/
def connInit (session_id : String) (start_time : Nat) : ConnState :=
  { session := RecordingSession.init session_id start_time
    recording_active := false
    audioQ := none
    current_sample_rate := 48000
    sttThread := false }

/-- Lines 310-326: handling of one binary frame.  The chunk is ALWAYS
ingested into the session (counted and logged); on the first chunk the
recording activates and a fresh queue plus worker appear; then, whenever a
queue handle exists, the chunk — of any length, zero included — is put on
the queue.  The returned flag is `true` when `add_chunk` raised (log write
failure), which aborts the rest of the handler. -/
def handleBinaryFrame (st : ConnState) (msg : Chunk) (writeOk : Bool) :
    ConnState × Bool :=
  match st.session.add_chunk msg writeOk with
  | (session1, true) => ({ st with session := session1 }, true)
  | (session1, false) =>
    let st1 := { st with session := session1 }
    let st2 :=
      if st1.recording_active = false then
        { st1 with recording_active := true, audioQ := some [], sttThread := true }
      else st1
    let st3 :=
      match st2.audioQ with
      | some q => { st2 with audioQ := some (q ++ [some msg]) }
      | none => st2
    (st3, false)

/-- A JSON value, the result of a successful `json.loads` (numbers are
restricted to integers; no claim involves JSON fractions). -/
inductive JsonValue where
  | str (s : String)
  | num (n : Int)
  | boolean (b : Bool)
  | null
  | arr (xs : List JsonValue)
  | obj (fields : List (String × JsonValue))

/-- Python `dict.get` on the field list of a JSON object. -/
def jget (fields : List (String × JsonValue)) (key : String) : Option JsonValue :=
  (fields.find? (fun p => p.1 == key)).map (fun p => p.2)

/-- Python `int(v)` on a JSON value: integers pass through, booleans become
0/1, strings are parsed; `none` models the uncaught
`TypeError`/`ValueError` raised on every other shape. -/
def pyInt : JsonValue → Option Int
  | .num n => some n
  | .boolean b => some (if b then 1 else 0)
  | .str s => pyIntOfString s
  | _ => none

/-- Result of `generate_summary` (lines 123-147): the fixed object for an
empty transcript list, else the summarizer answer — a summary text or an
error string (the external OpenAI call is abstracted as an argument). -/
inductive SummaryResult where
  | noTranscription
  | ok (text : String)
  | failed (err : String)
  deriving Repr, DecidableEq

/-- The `generate_summary` function, with the external summarizer passed
in: an empty transcript list short-circuits to the fixed answer. -/
def generate_summary (ai : List TranscriptLine → SummaryResult)
    (ts : List TranscriptLine) : SummaryResult :=
  if ts.isEmpty then .noTranscription else ai ts

/-- One reply sent to the client by the text-frame handler. -/
inductive Reply where
  | audio_format_ack (sampleRateHertz : Int) (encoding : JsonValue) (channels : JsonValue)
  | recording_stopped_ack (message : String) (summary : SummaryResult)
  | recording_saved (stats : RecordingSession.Stats)

/-- Lines 328-378: handling of one text frame.  `parsed = none` is a frame
`json.loads` rejects: the `except json.JSONDecodeError: pass` swallows it
(state unchanged, no reply).  A parsed non-object raises `AttributeError`
at `data.get`, which NO handler catches — modelled as `.error`, which
terminates the message loop.  An object dispatches on its `type` field:
`audio_format` converts `sampleRateHertz` with `int(...)` (an uncaught
`ValueError`/`TypeError` on a bad value is again `.error`) and replies with
an ack; `recording_stopped` pushes the end marker, joins the worker,
computes the summary, deactivates, drops the queue handle and replies;
`recording_complete` replies with the statistics; any other `type` falls
through silently. -/
def handleTextFrame (ai : List TranscriptLine → SummaryResult) (now : Nat)
    (st : ConnState) (parsed : Option JsonValue) :
    Except String (ConnState × List Reply) :=
  match parsed with
  | none => .ok (st, [])
  | some (.obj fields) =>
    match jget fields "type" with
    | some (.str tag) =>
      if tag = "audio_format" then
        match pyInt ((jget fields "sampleRateHertz").getD (.num st.current_sample_rate)) with
        | none => .error "ValueError: invalid sampleRateHertz"
        | some sr =>
          .ok ({ st with current_sample_rate := sr },
            [.audio_format_ack sr ((jget fields "encoding").getD (.str "LINEAR16"))
              ((jget fields "channels").getD (.num 1))])
      else if tag = "recording_stopped" then
        let summary := generate_summary ai st.session.transcripts
        .ok ({ st with recording_active := false, audioQ := none, sttThread := false },
          [.recording_stopped_ack "Recording stopped" summary])
      else if tag = "recording_complete" then
        .ok (st, [.recording_saved (st.session.get_stats now)])
      else
        .ok (st, [])
    | _ => .ok (st, [])
  | some _ => .error "AttributeError: no attribute get"

/-! ### Bulk diarization aggregation
(`post_processing.py`, `transcribe_with_chirp3`, lines 197-270) -/

/-- Python `" ".join`: single-space joining of word texts. -/
def sjoin : List String → String
  | [] => ""
  | [x] => x
  | x :: y :: xs => x ++ " " ++ sjoin (y :: xs)

/-- One word-level item of a batch result: text, optional speaker label
(`none` also models a falsy label) and optional start offset
(`start_offset.total_seconds()`, abstracted to whole ticks). -/
structure PPWord where
  word : String
  speaker_label : Option String
  start_offset : Option Nat
  deriving Repr, DecidableEq

/-- One alternative of a batch result. -/
structure PPAlt where
  transcript : String
  words : List PPWord
  confidence : Option Nat
  deriving Repr, DecidableEq

/-- One batch result. -/
structure PPResult where
  alternatives : List PPAlt
  language_code : Option String
  deriving Repr, DecidableEq

/-- One speaker turn appended to `transcripts` by the aggregation loop; the
`timestamp` field carries the `datetime.now()` sample of the append. -/
structure PPTurn where
  speaker : String
  text : String
  start_time : Option Nat
  language : String
  confidence : Option Nat
  timestamp : String
  deriving Repr, DecidableEq

/-- Line 238: rendered speaker name of one word — the labelled form for a
truthy label, else the generic placeholder. -/
def ppName (lbl : Option String) : String :=
  if truthyLabel lbl then "Speaker " ++ lbl.getD "" else "Unknown Speaker"

/-- Lines 235-259 as a recursion over the remaining words, carrying the
loop state (`current_speaker`, `current_text`, `start_time`) and the clock
tick.  A word whose truthy rendered name differs from the current speaker
flushes the pending turn (when its text is nonempty) and opens a new one;
every other word — in particular every unlabeled word — is appended to the
current turn.  The trailing flush of lines 261-270 is the base case. -/
def ppGo (clock : Nat → String) (lang : String) (conf : Option Nat) :
    String → List String → Option Nat → Nat → List PPWord → List PPTurn × Nat
  | cur, text, st0, k, [] =>
    if text.isEmpty then ([], k)
    else ([⟨cur, sjoin text, st0, lang, conf, clock k⟩], k + 1)
  | cur, text, st0, k, w :: ws =>
    let name := ppName w.speaker_label
    if truthyLabel w.speaker_label = true ∧ name ≠ cur then
      if text.isEmpty then
        ppGo clock lang conf name [w.word] w.start_offset k ws
      else
        match ppGo clock lang conf name [w.word] w.start_offset (k + 1) ws with
        | (turns, k2) => (⟨cur, sjoin text, st0, lang, conf, clock k⟩ :: turns, k2)
    else
      ppGo clock lang conf cur (text ++ [w.word]) st0 k ws

/-- Aggregation of the words of one alternative: the first word installs
the initial speaker and start time (lines 240-242), then the loop runs. -/
def ppWords (clock : Nat → String) (lang : String) (conf : Option Nat)
    (k : Nat) : List PPWord → List PPTurn × Nat
  | [] => ([], k)
  | w :: ws => ppGo clock lang conf (ppName w.speaker_label) [w.word] w.start_offset k ws

/-- Lines 200-270: turns contributed by one batch result.  A result with no
alternatives or an empty (stripped) transcript is skipped; a result whose
alternative has no word list at all becomes one turn of the whole
transcript under the placeholder of line 221; otherwise the word loop
runs. -/
def ppResult (clock : Nat → String) (k : Nat) (r : PPResult) : List PPTurn × Nat :=
  match r.alternatives.head? with
  | none => ([], k)
  | some alt =>
    if alt.transcript = "" ∨ pyStrip alt.transcript = "" then ([], k)
    else
      let lang := r.language_code.getD "en-US"
      if alt.words.isEmpty then
        ([⟨"Speaker 1", alt.transcript, some 0, lang, alt.confidence, clock k⟩], k + 1)
      else
        ppWords clock lang alt.confidence k alt.words

/-! ### Clock-free projections of the aggregation loop, used to state and
prove its structural properties -/

/-- The (speaker, text) projection of a turn. -/
def ppProj (t : PPTurn) : String × String := (t.speaker, t.text)

/-- Clock-free image of `ppGo`: the (speaker, text) pairs it emits. -/
def ppTurnsP : String → List String → List PPWord → List (String × String)
  | cur, text, [] => if text.isEmpty then [] else [(cur, sjoin text)]
  | cur, text, w :: ws =>
    let name := ppName w.speaker_label
    if truthyLabel w.speaker_label = true ∧ name ≠ cur then
      (if text.isEmpty then [] else [(cur, sjoin text)]) ++ ppTurnsP name [w.word] ws
    else
      ppTurnsP cur (text ++ [w.word]) ws

/-- Clock-free image of the loop state: the (`current_speaker`,
`current_text`) pair after consuming the words. -/
def ppStateP : String → List String → List PPWord → String × List String
  | cur, text, [] => (cur, text)
  | cur, text, w :: ws =>
    let name := ppName w.speaker_label
    if truthyLabel w.speaker_label = true ∧ name ≠ cur then
      ppStateP name [w.word] ws
    else
      ppStateP cur (text ++ [w.word]) ws

/-! ### The word-level grouping of the upload endpoint
(`backend.py`, `upload`, lines 151-169) -/

/-- Python `x or d` for an optional string `x`: the value when truthy, else
the default. -/
def pyOr (o : Option String) (d : String) : String :=
  match o with
  | some s => if s = "" then d else s
  | none => d

/-- One segment returned by `transcribe_batch_chirp3`. -/
structure Segment where
  speaker : Option String
  start_time : Option String
  end_time : Option String
  text : Option String
  language : Option String
  deriving Repr, DecidableEq

/-- One grouped transcript line built by `upload`. -/
structure UploadLine where
  id : Nat
  speaker : String
  text : String
  language : Option String
  deriving Repr, DecidableEq

/-- The grouping loop of lines 155-165: a segment whose rendered speaker
differs from the current line (every unlabeled segment renders as the
placeholder) closes the current line and opens a new one; otherwise its
text is appended with a single-space join. -/
def uploadGo (acc : List UploadLine) (cur : Option UploadLine) :
    List Segment → List UploadLine
  | [] =>
    match cur with
    | none => acc
    | some c => acc ++ [c]
  | s :: ss =>
    let speaker := pyOr s.speaker "Speaker"
    match cur with
    | none =>
      uploadGo acc (some ⟨acc.length + 1, speaker, pyOr s.text "", s.language⟩) ss
    | some c =>
      if c.speaker ≠ speaker then
        uploadGo (acc ++ [c])
          (some ⟨(acc ++ [c]).length + 1, speaker, pyOr s.text "", s.language⟩) ss
      else
        uploadGo acc (some { c with text := c.text ++ " " ++ pyOr s.text "" }) ss

/-- Lines 152-169: the word-level route is taken exactly when some segment
carries a truthy `start_time`; otherwise each segment becomes its own
line. -/
def uploadTranscripts (segments : List Segment) : List UploadLine :=
  if segments.isEmpty = false ∧
      segments.any (fun s => pyOr s.start_time "" ≠ "") = true then
    uploadGo [] none segments
  else
    (segments.enum.map fun p =>
      ⟨p.1 + 1, pyOr p.2.speaker "Speaker", pyOr p.2.text "", p.2.language⟩)

/-! ## Theorems -/

/-- Effect of a whole run of successful ingestions, from an arbitrary
starting session. -/
theorem ingestAll_spec (cs : List Chunk) (s : RecordingSession) :
    (RecordingSession.ingestAll s cs).total_bytes
        = s.total_bytes + (cs.map List.length).sum ∧
    (RecordingSession.ingestAll s cs).chunks = s.chunks ++ cs ∧
    (RecordingSession.ingestAll s cs).logFile = s.logFile ++ cs.flatten := by
  induction cs generalizing s with
  | nil => simp [RecordingSession.ingestAll]
  | cons c cs ih =>
    have h := ih ((RecordingSession.add_chunk s c true).1)
    simp only [RecordingSession.ingestAll, List.foldl_cons] at h ⊢
    rw [h.1, h.2.1, h.2.2]
    refine ⟨?_, ?_, ?_⟩ <;> simp [RecordingSession.add_chunk]
    all_goals omega

/-- C3: for every session and every finite sequence of chunks ingested via
`add_chunk` (all log writes succeeding), `total_bytes` ends up equal to the
sum of the chunk lengths, `chunks_received` (the length of `chunks`, as
reported by `get_stats`) equals the number of chunks, and the byte length of
the durable log file equals `total_bytes`. -/
theorem C3_session_accounting (sid : String) (t0 : Nat) (cs : List Chunk) :
    (RecordingSession.ingestAll (RecordingSession.init sid t0) cs).total_bytes
        = (cs.map List.length).sum ∧
    (RecordingSession.ingestAll (RecordingSession.init sid t0) cs).chunks.length
        = cs.length ∧
    ((RecordingSession.ingestAll (RecordingSession.init sid t0) cs).get_stats t0).chunks_received
        = cs.length ∧
    (RecordingSession.ingestAll (RecordingSession.init sid t0) cs).logFile.length
        = (RecordingSession.ingestAll (RecordingSession.init sid t0) cs).total_bytes := by
  obtain ⟨h1, h2, h3⟩ := ingestAll_spec cs (RecordingSession.init sid t0)
  have e1 : (RecordingSession.init sid t0).total_bytes = 0 := rfl
  have e2 : (RecordingSession.init sid t0).chunks = [] := rfl
  have e3 : (RecordingSession.init sid t0).logFile = [] := rfl
  rw [e1, Nat.zero_add] at h1
  rw [e2, List.nil_append] at h2
  rw [e3, List.nil_append] at h3
  refine ⟨h1, by rw [h2], ?_, by rw [h3, h1]; simp⟩
  simp [RecordingSession.get_stats, h2]

/-- C10: ingestion is not atomic on durability failure.  When the log write
raises (`writeOk = false`), `add_chunk` raises (second component `true`),
yet the session's chunk list and `total_bytes` already include the chunk,
while the durable log does not contain it. -/
theorem C10_nonatomic_ingest (s : RecordingSession) (c : Chunk) :
    (s.add_chunk c false).2 = true ∧
    (s.add_chunk c false).1.total_bytes = s.total_bytes + c.length ∧
    (s.add_chunk c false).1.chunks = s.chunks ++ [c] ∧
    (s.add_chunk c false).1.chunks.length = s.chunks.length + 1 ∧
    (s.add_chunk c false).1.logFile = s.logFile := by
  refine ⟨rfl, rfl, rfl, by simp [RecordingSession.add_chunk], rfl⟩

/-- A connection state in the middle of an active recording, with one
nonempty chunk already queued. -/
def stActive : ConnState :=
  { session := RecordingSession.init "s" 0
    recording_active := true
    audioQ := some [some [1]]
    current_sample_rate := 48000
    sttThread := true }

/-- C2 counterexample: during an active session, a zero-length binary frame
IS placed on the Transfer Queue (the handler has no length guard before
`audio_q.put`), contradicting the claim that only non-empty chunks are
placed on the queue. -/
theorem C2_counterexample :
    (handleBinaryFrame stActive [] true).1.audioQ
        = some [some [1], some ([] : Chunk)] ∧
    ([] : Chunk).length = 0 ∧
    stActive.recording_active = true := by
  refine ⟨rfl, rfl, rfl⟩

/-- Zero-length chunks vanish at the request generator: appending an empty
chunk to any queue prefix leaves the chunks sent to the provider
unchanged. -/
theorem genSent_append_empty (xs : List (Option Chunk)) :
    genSent (xs ++ [some ([] : Chunk)]) = genSent xs := by
  induction xs with
  | nil => simp [genSent]
  | cons x xs ih =>
    cases x with
    | none => simp [genSent]
    | some c =>
      simp only [List.cons_append, genSent]
      split <;> simp [ih]

/-- C2 amended: a zero-length chunk increases `total_bytes` by zero and is
counted in the chunk accounting, it IS put on the Transfer Queue whenever a
queue handle exists (fresh queue included, on activation), and it is
filtered out by the recognition worker's request generator, so the provider
never receives it. -/
theorem C2_amended_zero_chunk (st : ConnState) (xs : List (Option Chunk)) :
    (handleBinaryFrame st [] true).2 = false ∧
    (handleBinaryFrame st [] true).1.session.total_bytes
        = st.session.total_bytes ∧
    (handleBinaryFrame st [] true).1.session.chunks.length
        = st.session.chunks.length + 1 ∧
    (st.recording_active = true →
      (handleBinaryFrame st [] true).1.audioQ
          = st.audioQ.map (fun q => q ++ [some []])) ∧
    (st.recording_active = false →
      (handleBinaryFrame st [] true).1.audioQ = some [some []]) ∧
    genSent (xs ++ [some []]) = genSent xs := by
  obtain ⟨sess, act, aq, sr, th⟩ := st
  refine ⟨?_, ?_, ?_, ?_, ?_, genSent_append_empty xs⟩ <;>
    cases act <;> cases aq <;>
      simp [handleBinaryFrame, RecordingSession.add_chunk]

/-- Witness for the amended C2 statement at a concrete active state. -/
theorem C2_amended_zero_chunk_witness :
    (handleBinaryFrame stActive [] true).1.session.total_bytes
        = stActive.session.total_bytes ∧
    (handleBinaryFrame stActive [] true).1.audioQ
        = stActive.audioQ.map (fun q => q ++ [some []]) := by
  have h := C2_amended_zero_chunk stActive []
  exact ⟨h.2.1, h.2.2.2.1 rfl⟩

/-- The transcript list produced by processing one result, in closed
form. -/
theorem processRecResult_transcripts (clock : Nat → String) (k : Nat)
    (s : RecordingSession) (r : RecResult) :
    (processRecResult clock k s r).1.transcripts =
      (match r.alternatives.head? with
      | none => s.transcripts
      | some alt =>
        if r.is_final = true ∧ pyStrip alt.transcript ≠ "" then
          s.transcripts ++
            [{ speaker := speakerLabelOf (speakerTagOf alt.words)
               text := alt.transcript
               language := languageNameOf (r.language_code.getD "en-US")
               timestamp := clock k }]
        else s.transcripts) := by
  cases hh : r.alternatives.head? with
  | none => simp [processRecResult, hh]
  | some alt =>
    simp only [processRecResult, hh]
    split
    · simp [RecordingSession.add_transcript]
    · rfl

/-- C4: a line is appended to the session's transcript list if and only if
the processed result is final and its transcript text is nonempty after
stripping; an interim (non-final) result never mutates the transcript list,
whatever its text. -/
theorem C4_transcript_iff (clock : Nat → String) (k : Nat)
    (s : RecordingSession) (r : RecResult) :
    (r.is_final = false →
      (processRecResult clock k s r).1.transcripts = s.transcripts) ∧
    (∀ alt, r.alternatives.head? = some alt →
      (processRecResult clock k s r).1.transcripts =
        (if r.is_final = true ∧ pyStrip alt.transcript ≠ "" then
          s.transcripts ++
            [{ speaker := speakerLabelOf (speakerTagOf alt.words)
               text := alt.transcript
               language := languageNameOf (r.language_code.getD "en-US")
               timestamp := clock k }]
        else s.transcripts)) ∧
    ((processRecResult clock k s r).1.transcripts ≠ s.transcripts ↔
      ∃ alt, r.alternatives.head? = some alt ∧ r.is_final = true ∧
        pyStrip alt.transcript ≠ "") := by
  cases hh : r.alternatives.head? with
  | none =>
    have key : (processRecResult clock k s r).1.transcripts = s.transcripts := by
      have k0 := processRecResult_transcripts clock k s r
      rw [hh] at k0
      exact k0
    refine ⟨fun _ => key, ?_, ?_⟩
    · intro alt halt; simp at halt
    · constructor
      · intro hne; exact absurd key hne
      · rintro ⟨alt, halt, -⟩; simp at halt
  | some alt =>
    have key : (processRecResult clock k s r).1.transcripts =
        (if r.is_final = true ∧ pyStrip alt.transcript ≠ "" then
          s.transcripts ++
            [{ speaker := speakerLabelOf (speakerTagOf alt.words)
               text := alt.transcript
               language := languageNameOf (r.language_code.getD "en-US")
               timestamp := clock k }]
        else s.transcripts) := by
      have k0 := processRecResult_transcripts clock k s r
      rw [hh] at k0
      exact k0
    have hne : ∀ x : TranscriptLine, s.transcripts ++ [x] ≠ s.transcripts := by
      intro x h
      have := congrArg List.length h
      simp at this
    refine ⟨?_, ?_, ?_⟩
    · intro hf
      rw [key, if_neg]
      rintro ⟨hfin, -⟩
      rw [hf] at hfin
      cases hfin
    · intro alt2 halt2
      injection halt2 with he
      subst he
      exact key
    · constructor
      · intro hchanged
        by_cases hc : r.is_final = true ∧ pyStrip alt.transcript ≠ ""
        · exact ⟨alt, rfl, hc⟩
        · rw [key, if_neg hc] at hchanged
          exact absurd rfl hchanged
      · rintro ⟨alt2, halt2, hfin, hstrip⟩
        injection halt2 with he
        subst he
        rw [key, if_pos ⟨hfin, hstrip⟩]
        apply hne

/-- A concrete final result carrying the text "hello" and no word labels. -/
def rFinalHello : RecResult :=
  { alternatives := [{ transcript := "hello", words := [], confidence := some 9 }]
    is_final := true
    language_code := some "en-US" }

/-- Witness for C4 at a concrete final result: exactly one line, with the
placeholder speaker, is appended to a fresh session. -/
theorem C4_transcript_iff_witness :
    (processRecResult (fun _ => "T") 0 (RecordingSession.init "s" 0)
        rFinalHello).1.transcripts =
      [{ speaker := "Speaker", text := "hello", language := "English",
         timestamp := "T" }] := by
  have h := (C4_transcript_iff (fun _ => "T") 0 (RecordingSession.init "s" 0)
      rFinalHello).2.1 { transcript := "hello", words := [], confidence := some 9 } rfl
  rw [h]
  decide

/-- No queue item is duplicated or dropped across stream re-opens: the
items pulled per attempt, concatenated in order, followed by the items
never pulled, reconstitute the original queue exactly. -/
theorem runWorker_no_loss (clock : Nat → String) (sample_rate : Int) :
    ∀ (atts : List Attempt) (k : Nat) (s : RecordingSession)
      (q : List (Option Chunk)),
    (runWorker clock sample_rate k s q atts).taken.flatten ++
      (runWorker clock sample_rate k s q atts).remaining = q := by
  intro atts
  induction atts with
  | nil => intro k s q; simp [runWorker]
  | cons a rest ih =>
    intro k s q
    rcases hri : runItems clock k s a.items a.streamEnd with ⟨s1, outs, k1, e⟩
    cases e with
    | none => simp [runWorker, hri, List.take_append_drop]
    | some m =>
      by_cases hm : isTimeoutError m = true
      · simp only [runWorker, hri, hm, if_pos, List.flatten_cons, List.append_assoc]
        rw [ih k1 s1 (q.drop a.consume), List.take_append_drop]
      · simp [runWorker, hri, hm, List.take_append_drop]

/-- Every re-open builds its configuration from the same sample rate. -/
theorem runWorker_same_config (clock : Nat → String) (sample_rate : Int) :
    ∀ (atts : List Attempt) (k : Nat) (s : RecordingSession)
      (q : List (Option Chunk)),
    ∀ cfg ∈ (runWorker clock sample_rate k s q atts).configs,
      cfg = build_streaming_config sample_rate := by
  intro atts
  induction atts with
  | nil => intro k s q cfg hc; simp [runWorker] at hc
  | cons a rest ih =>
    intro k s q cfg hc
    rcases hri : runItems clock k s a.items a.streamEnd with ⟨s1, outs, k1, e⟩
    cases e with
    | none =>
      simp [runWorker, hri] at hc
      simp [hc]
    | some m =>
      by_cases hm : isTimeoutError m = true
      · simp [runWorker, hri, hm] at hc
        rcases hc with rfl | hc
        · rfl
        · exact ih _ _ _ cfg hc
      · simp [runWorker, hri, hm] at hc
        simp [hc]

/-- An attempt whose items all process cleanly ends with the error of the
stream iteration itself. -/
theorem runItems_noBroken (clock : Nat → String) :
    ∀ (items : List StreamItem) (k : Nat) (s : RecordingSession)
      (endE : Option String), noBroken items = true →
      (runItems clock k s items endE).2.2.2 = endE := by
  intro items
  induction items with
  | nil => intro k s endE _; rfl
  | cons i rest ih =>
    intro k s endE h
    cases i with
    | broken m => simp [noBroken] at h
    | response r =>
      have hr : noBroken rest = true := by
        simpa [noBroken] using h
      rcases hp : processResponse clock k s r with ⟨s1, outs1, k1⟩
      rcases hq : runItems clock k1 s1 rest endE with ⟨s2, outs2, k2, e⟩
      have he := ih k1 s1 endE hr
      rw [hq] at he
      simp only [runItems, hp, hq]
      exact he

/-- An error raised at one item propagates out of the response loop: the
items before it are processed (same session, same outbound payloads as the
clean run over the prefix), everything after it is never processed, and the
escaping exception carries its message. -/
theorem runItems_broken (clock : Nat → String) :
    ∀ (pre : List StreamItem) (k : Nat) (s : RecordingSession) (m : String)
      (post : List StreamItem) (endE : Option String),
      noBroken pre = true →
      runItems clock k s (pre ++ .broken m :: post) endE =
        ((runItems clock k s pre none).1, (runItems clock k s pre none).2.1,
         (runItems clock k s pre none).2.2.1, some m) := by
  intro pre
  induction pre with
  | nil => intro k s m post endE _; rfl
  | cons i rest ih =>
    intro k s m post endE h
    cases i with
    | broken mm => simp [noBroken] at h
    | response r =>
      have hr : noBroken rest = true := by simpa [noBroken] using h
      rcases hp : processResponse clock k s r with ⟨s1, outs1, k1⟩
      rcases hq : runItems clock k1 s1 rest none with ⟨s2, outs2, k2, e⟩
      have hb := ih k1 s1 m post endE hr
      rw [hq] at hb
      simp [List.cons_append, runItems, hp, hb, hq]

/-- C1: the retry loop of the recognition worker.  Whatever the attempts
do, the queue items consumed across all attempts plus the items still
queued reconstitute the queue exactly (nothing re-delivered, nothing
dropped), and every attempt opens its stream with a configuration built
from the same sample rate.  A stream that raises the recognized timeout
signature exactly twice and then completes cleanly produces exactly two
re-opens and one successful completion; a stream error without the
signature terminates the worker at once, with zero re-opens. -/
theorem C1_retry_loop (clock : Nat → String) (sample_rate : Int) (k : Nat)
    (s : RecordingSession) (q : List (Option Chunk))
    (n1 n2 n3 : Nat) (e1 e2 : String) (items3 : List StreamItem)
    (h1 : isTimeoutError e1 = true) (h2 : isTimeoutError e2 = true)
    (h3 : noBroken items3 = true) :
    (∀ atts : List Attempt,
      (runWorker clock sample_rate k s q atts).taken.flatten ++
        (runWorker clock sample_rate k s q atts).remaining = q) ∧
    (∀ atts : List Attempt,
      ∀ cfg ∈ (runWorker clock sample_rate k s q atts).configs,
        cfg = build_streaming_config sample_rate) ∧
    ((runWorker clock sample_rate k s q
        [⟨n1, [], some e1⟩, ⟨n2, [], some e2⟩, ⟨n3, items3, none⟩]).reopens = 2 ∧
     (runWorker clock sample_rate k s q
        [⟨n1, [], some e1⟩, ⟨n2, [], some e2⟩, ⟨n3, items3, none⟩]).exit
        = .completed) ∧
    (∀ (m : String) (nc : Nat) (rest : List Attempt),
      isTimeoutError m = false →
      (runWorker clock sample_rate k s q (⟨nc, [], some m⟩ :: rest)).exit
          = .terminated m ∧
      (runWorker clock sample_rate k s q (⟨nc, [], some m⟩ :: rest)).reopens
          = 0) := by
  refine ⟨fun atts => runWorker_no_loss clock sample_rate atts k s q,
    fun atts => runWorker_same_config clock sample_rate atts k s q, ?_, ?_⟩
  · rcases hri : runItems clock k s items3 none with ⟨s3, outs3, k3, e3⟩
    have he : e3 = none := by
      have hx := runItems_noBroken clock items3 k s none h3
      rw [hri] at hx
      exact hx
    subst he
    constructor <;> simp [runWorker, runItems, h1, h2, hri]
  · intro m nc rest hm
    constructor <;> simp [runWorker, runItems, hm]

/-- Witness for C1 at a concrete queue and concrete timeout texts. -/
theorem C1_retry_loop_witness :
    (runWorker (fun _ => "T") 16000 0 (RecordingSession.init "w" 0)
        [some [1], some [2], none]
        [⟨1, [], some "Audio Timeout"⟩, ⟨1, [], some "grpc OUT_OF_RANGE"⟩,
         ⟨1, [], none⟩]).reopens = 2 ∧
    (runWorker (fun _ => "T") 16000 0 (RecordingSession.init "w" 0)
        [some [1], some [2], none]
        [⟨1, [], some "Audio Timeout"⟩, ⟨1, [], some "grpc OUT_OF_RANGE"⟩,
         ⟨1, [], none⟩]).exit = .completed :=
  (C1_retry_loop (fun _ => "T") 16000 0 (RecordingSession.init "w" 0)
    [some [1], some [2], none] 1 1 1 "Audio Timeout" "grpc OUT_OF_RANGE" []
    (by decide) (by decide) (by decide)).2.2.1

/-- A concrete response whose only result is final with text "hello". -/
def respHello : SpeechResponse := { results := [rFinalHello] }

/-- A concrete final result carrying the text "later" and no word labels. -/
def rFinalLater : RecResult :=
  { alternatives := [{ transcript := "later", words := [], confidence := some 7 }]
    is_final := true
    language_code := some "en-US" }

/-- A concrete response whose only result is final with text "later". -/
def respLater : SpeechResponse := { results := [rFinalLater] }

/-- C8 counterexample: there is NO per-iteration catch.  With one good
response, then an error raised while processing the next item, then another
good response, the worker terminates with the error: the third response is
never processed (one outbound payload, one transcript line), and the
stream does not complete — contradicting the claim that one malformed
response is caught for its iteration alone and the stream continues. -/
theorem C8_counterexample :
    (runWorker (fun _ => "T") 48000 0 (RecordingSession.init "s" 0) []
        [⟨0, [.response respHello, .broken "boom", .response respLater],
          none⟩]).exit = .terminated "boom" ∧
    (runWorker (fun _ => "T") 48000 0 (RecordingSession.init "s" 0) []
        [⟨0, [.response respHello, .broken "boom", .response respLater],
          none⟩]).exit ≠ .completed ∧
    (runWorker (fun _ => "T") 48000 0 (RecordingSession.init "s" 0) []
        [⟨0, [.response respHello, .broken "boom", .response respLater],
          none⟩]).outputs.length = 1 ∧
    (runWorker (fun _ => "T") 48000 0 (RecordingSession.init "s" 0) []
        [⟨0, [.response respHello, .broken "boom", .response respLater],
          none⟩]).session.transcripts.length = 1 := by
  decide

/-- C8 amended: an error raised while processing one response propagates
out of the response loop to the worker's single stream-level handler: the
responses before it are processed normally, everything after it is never
processed, and the worker then either re-opens the stream (timeout
signature) or terminates (any other error text) — one malformed response
CAN terminate the whole stream. -/
theorem C8_no_per_iteration_catch (clock : Nat → String) (k : Nat)
    (s : RecordingSession) (pre post : List StreamItem) (m : String)
    (endE : Option String) (hpre : noBroken pre = true) :
    (runItems clock k s (pre ++ .broken m :: post) endE).2.2.2 = some m ∧
    (runItems clock k s (pre ++ .broken m :: post) endE).1 =
      (runItems clock k s pre none).1 ∧
    (runItems clock k s (pre ++ .broken m :: post) endE).2.1 =
      (runItems clock k s pre none).2.1 ∧
    (∀ (sample_rate : Int) (q : List (Option Chunk)) (nc : Nat)
        (rest : List Attempt), isTimeoutError m = false →
      (runWorker clock sample_rate k s q
          (⟨nc, pre ++ .broken m :: post, endE⟩ :: rest)).exit
          = .terminated m ∧
      (runWorker clock sample_rate k s q
          (⟨nc, pre ++ .broken m :: post, endE⟩ :: rest)).reopens = 0) := by
  have hb := runItems_broken clock pre k s m post endE hpre
  refine ⟨by rw [hb], by rw [hb], by rw [hb], ?_⟩
  intro sr q nc rest hm
  rcases hri : runItems clock k s (pre ++ StreamItem.broken m :: post) endE
    with ⟨s1, outs, k1, e⟩
  rw [hri] at hb
  have he : e = some m := by
    have := congrArg (fun t => t.2.2.2) hb
    simpa using this
  subst he
  constructor <;> simp [runWorker, hri, hm]

/-- Witness for the amended C8 statement at a concrete broken stream. -/
theorem C8_no_per_iteration_catch_witness :
    (runItems (fun _ => "T") 0 (RecordingSession.init "s" 0)
        [.response respHello, .broken "boom", .response respLater]
        none).2.2.2 = some "boom" ∧
    (runWorker (fun _ => "T") 48000 0 (RecordingSession.init "s" 0) []
        [⟨0, [.response respHello, .broken "boom", .response respLater],
          none⟩]).exit = .terminated "boom" := by
  have h := C8_no_per_iteration_catch (fun _ => "T") 0
    (RecordingSession.init "s" 0) [.response respHello]
    [.response respLater] "boom" none (by decide)
  exact ⟨h.1, (h.2.2.2 48000 [] 0 [] (by decide)).1⟩

/-- C9 counterexample: only `json.JSONDecodeError` is caught.  A text frame
whose JSON is valid but not an object (here an empty array) reaches
`data.get` and raises an uncaught `AttributeError`; an `audio_format`
object whose `sampleRateHertz` cannot be converted raises an uncaught
`ValueError`.  Both terminate the message loop instead of being silently
ignored. -/
theorem C9_counterexample :
    handleTextFrame (fun _ => .noTranscription) 0 (connInit "s" 0)
        (some (.arr [])) = .error "AttributeError: no attribute get" ∧
    handleTextFrame (fun _ => .noTranscription) 0 (connInit "s" 0)
        (some (.obj [("type", .str "audio_format"),
                     ("sampleRateHertz", .str "abc")]))
        = .error "ValueError: invalid sampleRateHertz" := by
  constructor <;> rfl

/-- C9 amended: a text frame that fails JSON parsing is silently ignored —
no reply, no exception, state unchanged, loop continues; so is a
well-formed object with an absent or unrecognized `type`.  But a valid
non-object JSON frame, or an `audio_format` object whose `sampleRateHertz`
fails integer conversion, raises an uncaught exception that terminates the
message loop. -/
theorem C9_malformed_frames (ai : List TranscriptLine → SummaryResult)
    (now : Nat) (st : ConnState) :
    (handleTextFrame ai now st none = .ok (st, [])) ∧
    (∀ fields, jget fields "type" = none →
      handleTextFrame ai now st (some (.obj fields)) = .ok (st, [])) ∧
    (∀ fields tag, jget fields "type" = some (.str tag) →
      tag ≠ "audio_format" → tag ≠ "recording_stopped" →
      tag ≠ "recording_complete" →
      handleTextFrame ai now st (some (.obj fields)) = .ok (st, [])) ∧
    (∀ xs, handleTextFrame ai now st (some (.arr xs))
        = .error "AttributeError: no attribute get") ∧
    (∀ fields v, jget fields "type" = some (.str "audio_format") →
      jget fields "sampleRateHertz" = some v → pyInt v = none →
      handleTextFrame ai now st (some (.obj fields))
        = .error "ValueError: invalid sampleRateHertz") := by
  refine ⟨rfl, ?_, ?_, fun xs => rfl, ?_⟩
  · intro fields h
    simp [handleTextFrame, h]
  · intro fields tag h h1 h2 h3
    simp [handleTextFrame, h, h1, h2, h3]
  · intro fields v hty hv hpy
    simp [handleTextFrame, hty, hv, hpy]

/-- Witness for the amended C9 statement at concrete malformed frames. -/
theorem C9_malformed_frames_witness :
    handleTextFrame (fun _ => .noTranscription) 0 (connInit "s" 0) none
        = .ok (connInit "s" 0, []) ∧
    handleTextFrame (fun _ => .noTranscription) 0 (connInit "s" 0)
        (some (.obj [("type", .str "bogus")])) = .ok (connInit "s" 0, []) ∧
    handleTextFrame (fun _ => .noTranscription) 0 (connInit "s" 0)
        (some (.obj [("type", .str "audio_format"),
                     ("sampleRateHertz", .null)]))
        = .error "ValueError: invalid sampleRateHertz" := by
  have h := C9_malformed_frames (fun _ => .noTranscription) 0 (connInit "s" 0)
  refine ⟨h.1, ?_, ?_⟩
  · exact h.2.2.1 [("type", .str "bogus")] "bogus" rfl
      (by decide) (by decide) (by decide)
  · exact h.2.2.2.2 [("type", .str "audio_format"),
      ("sampleRateHertz", .null)] .null rfl rfl rfl

/-! ### The majority vote of `Counter.most_common(1)` -/

/-- The specification-side reading of "most frequent label, ties broken by
first-seen order": the first key, in first-seen order, whose count is at
least every other count in the label list. -/
def specMostFrequent (l : List String) : Option String :=
  (firstSeenKeys l).find?
    (fun k => l.all (fun x => decide (l.count x ≤ l.count k)))

/-- The running best of the fold never has a smaller count than its seed. -/
theorem le_cnt_bestTag (cnt : String → Nat) :
    ∀ (ks : List String) (b : String), cnt b ≤ cnt (bestTag cnt b ks) := by
  intro ks
  induction ks with
  | nil => intro b; exact le_rfl
  | cons k ks ih =>
    intro b
    simp only [bestTag]
    by_cases h : cnt b < cnt k
    · rw [if_pos h]; exact le_trans (le_of_lt h) (ih k)
    · rw [if_neg h]; exact ih b

/-- The running best dominates the count of every key it has passed. -/
theorem cnt_le_bestTag (cnt : String → Nat) :
    ∀ (ks : List String) (b x : String), x ∈ ks →
      cnt x ≤ cnt (bestTag cnt b ks) := by
  intro ks
  induction ks with
  | nil => intro b x hx; cases hx
  | cons k ks ih =>
    intro b x hx
    simp only [bestTag]
    rcases List.mem_cons.mp hx with rfl | hx2
    · by_cases h : cnt b < cnt x
      · rw [if_pos h]; exact le_cnt_bestTag cnt ks x
      · rw [if_neg h]; exact le_trans (le_of_not_lt h) (le_cnt_bestTag cnt ks b)
    · by_cases h : cnt b < cnt k
      · rw [if_pos h]; exact ih k x hx2
      · rw [if_neg h]; exact ih b x hx2

/-- The fold result is the seed or one of the keys. -/
theorem bestTag_mem (cnt : String → Nat) :
    ∀ (ks : List String) (b : String),
      bestTag cnt b ks = b ∨ bestTag cnt b ks ∈ ks := by
  intro ks
  induction ks with
  | nil => intro b; exact Or.inl rfl
  | cons k ks ih =>
    intro b
    simp only [bestTag]
    by_cases h : cnt b < cnt k
    · rw [if_pos h]
      rcases ih k with h2 | h2
      · exact Or.inr (by rw [h2]; exact List.mem_cons_self k ks)
      · exact Or.inr (List.mem_cons_of_mem k h2)
    · rw [if_neg h]
      rcases ih b with h2 | h2
      · exact Or.inl h2
      · exact Or.inr (List.mem_cons_of_mem k h2)

/-- The fold result is exactly the FIRST key of the list (seed first) whose
count is maximal: every earlier key has a strictly smaller count. -/
theorem find?_bestTag (cnt : String → Nat) :
    ∀ (ks : List String) (b : String),
      (b :: ks).find? (fun x => decide (cnt (bestTag cnt b ks) ≤ cnt x))
        = some (bestTag cnt b ks) := by
  intro ks
  induction ks with
  | nil =>
    intro b
    simp [bestTag, List.find?]
  | cons k ks ih =>
    intro b
    by_cases h : cnt b < cnt k
    · have hbt : bestTag cnt b (k :: ks) = bestTag cnt k ks := by
        simp [bestTag, h]
      rw [hbt]
      have hmb : ¬ (cnt (bestTag cnt k ks) ≤ cnt b) := by
        have := le_cnt_bestTag cnt ks k
        omega
      rw [List.find?_cons_of_neg _ (by simpa using hmb)]
      exact ih k
    · have hbt : bestTag cnt b (k :: ks) = bestTag cnt b ks := by
        simp [bestTag, h]
      rw [hbt]
      have ihb := ih b
      by_cases hb : cnt (bestTag cnt b ks) ≤ cnt b
      · rw [List.find?_cons_of_pos _ (by simpa using hb)]
        rw [List.find?_cons_of_pos _ (by simpa using hb)] at ihb
        exact ihb
      · have hk2 : ¬ (cnt (bestTag cnt b ks) ≤ cnt k) := by
          have hkb : ¬ cnt b < cnt k := h
          omega
        rw [List.find?_cons_of_neg _ (by simpa using hb),
            List.find?_cons_of_neg _ (by simpa using hk2)]
        rw [List.find?_cons_of_neg _ (by simpa using hb)] at ihb
        exact ihb

/-- Membership across the first-seen fold. -/
theorem mem_firstSeenKeys_aux :
    ∀ (l acc : List String) (x : String),
      (x ∈ l.foldl (fun acc y => if y ∈ acc then acc else acc ++ [y]) acc) ↔
        (x ∈ acc ∨ x ∈ l) := by
  intro l
  induction l with
  | nil => intro acc x; simp
  | cons y ys ih =>
    intro acc x
    simp only [List.foldl_cons]
    rw [ih]
    by_cases hy : y ∈ acc
    · rw [if_pos hy]
      constructor
      · rintro (h | h)
        · exact Or.inl h
        · exact Or.inr (List.mem_cons_of_mem y h)
      · rintro (h | h)
        · exact Or.inl h
        · rcases List.mem_cons.mp h with rfl | h2
          · exact Or.inl hy
          · exact Or.inr h2
    · rw [if_neg hy]
      simp only [List.mem_append, List.mem_singleton, List.mem_cons]
      tauto

/-- The first-seen keys of a list are exactly its members. -/
theorem mem_firstSeenKeys (l : List String) (x : String) :
    x ∈ firstSeenKeys l ↔ x ∈ l := by
  have h := mem_firstSeenKeys_aux l [] x
  simpa [firstSeenKeys] using h

/-- Two pointwise-equal predicates find the same first element. -/
theorem find?_congr_mem {α : Type} (l : List α) (p q : α → Bool)
    (h : ∀ a ∈ l, p a = q a) : l.find? p = l.find? q := by
  induction l with
  | nil => rfl
  | cons a l ih =>
    have ha := h a (List.mem_cons_self a l)
    by_cases hp : p a = true
    · rw [List.find?_cons_of_pos _ hp, List.find?_cons_of_pos _ (ha ▸ hp)]
    · have hq : ¬ q a = true := by rw [← ha]; exact hp
      rw [List.find?_cons_of_neg _ (by simpa using hp),
          List.find?_cons_of_neg _ (by simpa using hq)]
      exact ih (fun a2 ha2 => h a2 (List.mem_cons_of_mem _ ha2))

/-- Refinement: the value of `Counter(l).most_common(1)[0][0]` as computed
by the source fold equals the specification reading — the first key in
first-seen order attaining the maximal count. -/
theorem mostCommonTag_eq_spec (l : List String) :
    mostCommonTag l = specMostFrequent l := by
  unfold mostCommonTag specMostFrequent
  cases hk : firstSeenKeys l with
  | nil => rfl
  | cons k ks =>
    have hmem : ∀ x ∈ (k :: ks),
        ((l.all fun y => decide (l.count y ≤ l.count x)) =
          decide (l.count (bestTag (fun t => l.count t) k ks) ≤ l.count x)) := by
      set cnt := fun t : String => l.count t with hcnt
      set m := bestTag cnt k ks with hmdef
      intro x hx
      by_cases hcx : cnt m ≤ cnt x
      · have hall : ∀ y ∈ l, cnt y ≤ cnt x := by
          intro y hy
          have hyk : y ∈ k :: ks := by
            rw [← hk]; exact (mem_firstSeenKeys l y).mpr hy
          have hym : cnt y ≤ cnt m := by
            rcases List.mem_cons.mp hyk with rfl | hyk2
            · exact le_cnt_bestTag cnt ks y
            · exact cnt_le_bestTag cnt ks k y hyk2
          omega
        rw [decide_eq_true hcx]
        simp only [List.all_eq_true]
        intro y hy
        exact decide_eq_true (hall y hy)
      · have hmx : m ∈ l := by
          have hmk : m ∈ k :: ks := by
            rcases bestTag_mem cnt ks k with h2 | h2
            · rw [hmdef, h2]; exact List.mem_cons_self k ks
            · exact List.mem_cons_of_mem k h2
          rw [← hk] at hmk
          exact (mem_firstSeenKeys l m).mp hmk
        have hfalse : (l.all fun y => decide (cnt y ≤ cnt x)) = false := by
          rcases hres : (l.all fun y => decide (cnt y ≤ cnt x)) with _ | _
          · rfl
          · exfalso
            have := List.all_eq_true.mp hres m hmx
            exact hcx (by simpa using this)
        rw [hfalse, decide_eq_false hcx]
    rw [find?_congr_mem _ _ _ hmem]
    exact (find?_bestTag (fun t => l.count t) ks k).symm

/-- Collected labels are never the empty string (the list comprehension
filters falsy labels). -/
theorem mem_collectTags_ne_empty (ws : List WordInfo) (x : String)
    (hx : x ∈ collectTags ws) : x ≠ "" := by
  unfold collectTags at hx
  rcases List.mem_filterMap.mp hx with ⟨w, -, hw⟩
  rcases hlab : w.speaker_label with - | s
  · rw [hlab] at hw; cases hw
  · rw [hlab] at hw
    have hw2 : (if s ≠ "" then some s else none) = some x := hw
    by_cases hs : s ≠ ""
    · rw [if_pos hs] at hw2
      injection hw2 with he
      subst he
      exact hs
    · rw [if_neg hs] at hw2
      cases hw2

/-- C5: when some words carry truthy speaker labels, the derived speaker
tag is the most frequent label among them with ties broken by first-seen
order (the `specMostFrequent` reading): it is a member of the collected
labels, its count is maximal, and it is rendered as "Speaker " followed by
the tag.  When no word carries a label the derived tag is null and is
rendered as the generic placeholder.  The two examples of the claim:
labels 2, 2, 1 select 2, and the first-seen tie of labels 1, 2 selects
1. -/
theorem C5_speaker_majority (ws : List WordInfo) :
    (collectTags ws ≠ [] →
      speakerTagOf ws = specMostFrequent (collectTags ws) ∧
      ∃ m, speakerTagOf ws = some m ∧ m ∈ collectTags ws ∧
        (∀ x ∈ collectTags ws,
          (collectTags ws).count x ≤ (collectTags ws).count m) ∧
        speakerLabelOf (speakerTagOf ws) = "Speaker " ++ m) ∧
    (collectTags ws = [] →
      speakerTagOf ws = none ∧
      speakerLabelOf (speakerTagOf ws) = "Speaker") ∧
    speakerTagOf [⟨"a", some "2"⟩, ⟨"b", some "2"⟩, ⟨"c", some "1"⟩]
        = some "2" ∧
    speakerTagOf [⟨"a", some "1"⟩, ⟨"b", some "2"⟩] = some "1" := by
  refine ⟨?_, ?_, by decide, by decide⟩
  · intro htags
    have hws : ws ≠ [] := by
      intro h
      rw [h] at htags
      exact htags rfl
    have hsp : speakerTagOf ws = mostCommonTag (collectTags ws) := by
      cases ws with
      | nil => exact absurd rfl hws
      | cons a as => rfl
    obtain ⟨t, ts, htt⟩ : ∃ t ts, collectTags ws = t :: ts := by
      cases h : collectTags ws with
      | nil => exact absurd h htags
      | cons t ts => exact ⟨t, ts, rfl⟩
    cases hk : firstSeenKeys (collectTags ws) with
    | nil =>
      exfalso
      have hmem : t ∈ firstSeenKeys (collectTags ws) :=
        (mem_firstSeenKeys _ t).mpr (by rw [htt]; exact List.mem_cons_self t ts)
      rw [hk] at hmem
      cases hmem
    | cons k ks =>
      have hm : mostCommonTag (collectTags ws)
          = some (bestTag (fun x => (collectTags ws).count x) k ks) := by
        unfold mostCommonTag
        rw [hk]
      set cnt := fun x : String => (collectTags ws).count x with hcnt
      set m := bestTag cnt k ks with hmdef
      have hmk : m ∈ k :: ks := by
        rcases bestTag_mem cnt ks k with h2 | h2
        · rw [hmdef, h2]; exact List.mem_cons_self k ks
        · exact List.mem_cons_of_mem k h2
      have hmtags : m ∈ collectTags ws := by
        have := hmk
        rw [← hk] at this
        exact (mem_firstSeenKeys _ m).mp this
      refine ⟨by rw [hsp, mostCommonTag_eq_spec], m, by rw [hsp, hm], hmtags,
        ?_, ?_⟩
      · intro x hx
        have hxk : x ∈ k :: ks := by
          rw [← hk]
          exact (mem_firstSeenKeys _ x).mpr hx
        rcases List.mem_cons.mp hxk with rfl | hxk2
        · exact le_cnt_bestTag cnt ks x
        · exact cnt_le_bestTag cnt ks k x hxk2
      · rw [hsp, hm]
        have hne : m ≠ "" := mem_collectTags_ne_empty ws m hmtags
        simp [speakerLabelOf, hne]
  · intro htags
    have hsp : speakerTagOf ws = none := by
      cases ws with
      | nil => rfl
      | cons a as =>
        have : speakerTagOf (a :: as) = mostCommonTag (collectTags (a :: as)) := rfl
        rw [this, htags]
        rfl
    rw [hsp]
    exact ⟨rfl, rfl⟩

/-- Witness for C5 at the concrete tie-break example: labels 2, 2, 1. -/
theorem C5_speaker_majority_witness :
    speakerTagOf [⟨"a", some "2"⟩, ⟨"b", some "2"⟩, ⟨"c", some "1"⟩]
        = specMostFrequent
            (collectTags [⟨"a", some "2"⟩, ⟨"b", some "2"⟩, ⟨"c", some "1"⟩]) ∧
    speakerLabelOf (speakerTagOf
        [⟨"a", some "2"⟩, ⟨"b", some "2"⟩, ⟨"c", some "1"⟩]) = "Speaker 2" := by
  have h := (C5_speaker_majority
    [⟨"a", some "2"⟩, ⟨"b", some "2"⟩, ⟨"c", some "1"⟩]).1 (by decide)
  refine ⟨h.1, by decide⟩

/-! ### Structural properties of the bulk aggregation loop -/

/-- The clock only decorates timestamps: the (speaker, text) image of the
loop is its clock-free projection. -/
theorem ppGo_proj (clock : Nat → String) (lang : String) (conf : Option Nat) :
    ∀ (ws : List PPWord) (cur : String) (text : List String)
      (st0 : Option Nat) (k : Nat),
      (ppGo clock lang conf cur text st0 k ws).1.map ppProj
        = ppTurnsP cur text ws := by
  intro ws
  induction ws with
  | nil =>
    intro cur text st0 k
    cases h : text.isEmpty <;> simp [ppGo, ppTurnsP, h, ppProj]
  | cons w ws ih =>
    intro cur text st0 k
    by_cases hc : truthyLabel w.speaker_label = true ∧ ppName w.speaker_label ≠ cur
    · cases ht : text.isEmpty with
      | true =>
        simp only [ppGo, ppTurnsP, ht, if_pos hc, if_true]
        exact ih _ _ _ _
      | false =>
        rcases hg : ppGo clock lang conf (ppName w.speaker_label) [w.word]
            w.start_offset (k + 1) ws with ⟨turns, k2⟩
        have hih := ih (ppName w.speaker_label) [w.word] w.start_offset (k + 1)
        rw [hg] at hih
        simp only [ppGo, ppTurnsP, ht, if_pos hc, hg]
        simp [ppProj, hih]
    · simp only [ppGo, ppTurnsP, if_neg hc]
      exact ih _ _ _ _

/-- A pending nonempty turn guarantees at least one emitted turn. -/
theorem ppTurnsP_ne_nil :
    ∀ (ws : List PPWord) (cur : String) (text : List String),
      text ≠ [] → ppTurnsP cur text ws ≠ [] := by
  intro ws
  induction ws with
  | nil =>
    intro cur text ht
    have h : text.isEmpty = false := by
      cases text with
      | nil => exact absurd rfl ht
      | cons a l => rfl
    simp [ppTurnsP, h]
  | cons w ws ih =>
    intro cur text ht
    by_cases hc : truthyLabel w.speaker_label = true ∧ ppName w.speaker_label ≠ cur
    · have h : text.isEmpty = false := by
        cases text with
        | nil => exact absurd rfl ht
        | cons a l => rfl
      simp [ppTurnsP, if_pos hc, h]
    · simp only [ppTurnsP, if_neg hc]
      exact ih cur (text ++ [w.word]) (by simp)

/-- The first emitted turn carries the incoming current speaker. -/
theorem ppTurnsP_head :
    ∀ (ws : List PPWord) (cur : String) (text : List String),
      text ≠ [] → ∃ t rest, ppTurnsP cur text ws = (cur, t) :: rest := by
  intro ws
  induction ws with
  | nil =>
    intro cur text ht
    have h : text.isEmpty = false := by
      cases text with
      | nil => exact absurd rfl ht
      | cons a l => rfl
    exact ⟨sjoin text, [], by simp [ppTurnsP, h]⟩
  | cons w ws ih =>
    intro cur text ht
    by_cases hc : truthyLabel w.speaker_label = true ∧ ppName w.speaker_label ≠ cur
    · have h : text.isEmpty = false := by
        cases text with
        | nil => exact absurd rfl ht
        | cons a l => rfl
      exact ⟨sjoin text, ppTurnsP (ppName w.speaker_label) [w.word] ws,
        by simp [ppTurnsP, if_pos hc, h]⟩
    · simp only [ppTurnsP, if_neg hc]
      exact ih cur (text ++ [w.word]) (by simp)

/-- The pending text of the loop state never becomes empty. -/
theorem ppStateP_text_ne :
    ∀ (ws : List PPWord) (cur : String) (text : List String),
      text ≠ [] → (ppStateP cur text ws).2 ≠ [] := by
  intro ws
  induction ws with
  | nil => intro cur text ht; exact ht
  | cons w ws ih =>
    intro cur text ht
    by_cases hc : truthyLabel w.speaker_label = true ∧ ppName w.speaker_label ≠ cur
    · simp only [ppStateP, if_pos hc]
      exact ih _ _ (by simp)
    · simp only [ppStateP, if_neg hc]
      exact ih _ _ (by simp)

/-- Dropping the last element commutes with a front cons when the tail is
nonempty. -/
theorem dropLast_cons_ne {α : Type} (a : α) (l : List α) (h : l ≠ []) :
    (a :: l).dropLast = a :: l.dropLast := by
  cases l with
  | nil => exact absurd rfl h
  | cons b l2 => rfl

/-- Splitting the aggregation of a concatenation: the turns of the first
part minus its still-open final turn, then the aggregation of the second
part started from the carried-over loop state. -/
theorem ppTurnsP_append :
    ∀ (ws ws2 : List PPWord) (cur : String) (text : List String),
      text ≠ [] →
      ppTurnsP cur text (ws ++ ws2)
        = (ppTurnsP cur text ws).dropLast ++
            ppTurnsP (ppStateP cur text ws).1 (ppStateP cur text ws).2 ws2 := by
  intro ws
  induction ws with
  | nil =>
    intro ws2 cur text ht
    have h : text.isEmpty = false := by
      cases text with
      | nil => exact absurd rfl ht
      | cons a l => rfl
    simp [ppTurnsP, ppStateP, h]
  | cons w ws ih =>
    intro ws2 cur text ht
    by_cases hc : truthyLabel w.speaker_label = true ∧ ppName w.speaker_label ≠ cur
    · have h : text.isEmpty = false := by
        cases text with
        | nil => exact absurd rfl ht
        | cons a l => rfl
      have hne : ppTurnsP (ppName w.speaker_label) [w.word] ws ≠ [] :=
        ppTurnsP_ne_nil ws _ [w.word] (by simp)
      simp only [List.cons_append, ppTurnsP, ppStateP, if_pos hc, h,
        Bool.false_eq_true, if_false, List.append_eq]
      rw [ih ws2 (ppName w.speaker_label) [w.word] (by simp)]
      simp only [List.nil_append]
      rw [dropLast_cons_ne _ _ hne]
      simp
    · simp only [List.cons_append, ppTurnsP, ppStateP, if_neg hc]
      exact ih ws2 cur (text ++ [w.word]) (by simp)

/-- Adjacent emitted turns always carry different speakers. -/
theorem ppTurnsP_chain :
    ∀ (ws : List PPWord) (cur : String) (text : List String),
      text ≠ [] →
      List.Chain' (fun a b : String × String => a.1 ≠ b.1)
        (ppTurnsP cur text ws) := by
  intro ws
  induction ws with
  | nil =>
    intro cur text ht
    have h : text.isEmpty = false := by
      cases text with
      | nil => exact absurd rfl ht
      | cons a l => rfl
    simp [ppTurnsP, h]
  | cons w ws ih =>
    intro cur text ht
    by_cases hc : truthyLabel w.speaker_label = true ∧ ppName w.speaker_label ≠ cur
    · have h : text.isEmpty = false := by
        cases text with
        | nil => exact absurd rfl ht
        | cons a l => rfl
      simp only [ppTurnsP, if_pos hc, h, Bool.false_eq_true, if_false,
        List.nil_append, List.cons_append]
      rw [List.chain'_cons']
      constructor
      · intro y hy
        obtain ⟨t, rest, hrest⟩ :=
          ppTurnsP_head ws (ppName w.speaker_label) [w.word] (by simp)
        rw [hrest] at hy
        simp at hy
        rw [← hy]
        simp only [ne_eq]
        intro hcontra
        exact hc.2 hcontra.symm
      · exact ih _ _ (by simp)
    · simp only [ppTurnsP, if_neg hc]
      exact ih _ _ (by simp)

/-- Single-space join of a cons with a nonempty tail. -/
theorem sjoin_cons_ne (x : String) (l : List String) (h : l ≠ []) :
    sjoin (x :: l) = x ++ " " ++ sjoin l := by
  cases l with
  | nil => exact absurd rfl h
  | cons y ys => rfl

/-- Single-space join distributes over concatenation of nonempty lists. -/
theorem sjoin_append (a b : List String) (ha : a ≠ []) (hb : b ≠ []) :
    sjoin (a ++ b) = sjoin a ++ " " ++ sjoin b := by
  induction a with
  | nil => exact absurd rfl ha
  | cons x xs ih =>
    cases xs with
    | nil =>
      cases b with
      | nil => exact absurd rfl hb
      | cons y ys => rfl
    | cons z zs =>
      have hzz : (z :: zs : List String) ≠ [] := by simp
      rw [List.cons_append, sjoin_cons_ne x ((z :: zs) ++ b) (by simp),
        ih hzz, sjoin_cons_ne x (z :: zs) hzz]
      simp [String.append_assoc]

/-- The single-space join of all emitted turn texts is the single-space
join of the pending text followed by all remaining word texts: no word is
lost, duplicated or reordered. -/
theorem ppTurnsP_text :
    ∀ (ws : List PPWord) (cur : String) (text : List String),
      text ≠ [] →
      sjoin ((ppTurnsP cur text ws).map Prod.snd)
        = sjoin (text ++ ws.map PPWord.word) := by
  intro ws
  induction ws with
  | nil =>
    intro cur text ht
    have h : text.isEmpty = false := by
      cases text with
      | nil => exact absurd rfl ht
      | cons a l => rfl
    simp [ppTurnsP, h]
    rfl
  | cons w ws ih =>
    intro cur text ht
    by_cases hc : truthyLabel w.speaker_label = true ∧ ppName w.speaker_label ≠ cur
    · have h : text.isEmpty = false := by
        cases text with
        | nil => exact absurd rfl ht
        | cons a l => rfl
      have hne : ppTurnsP (ppName w.speaker_label) [w.word] ws ≠ [] :=
        ppTurnsP_ne_nil ws _ [w.word] (by simp)
      have hmapne : (ppTurnsP (ppName w.speaker_label) [w.word] ws).map Prod.snd ≠ [] := by
        intro hx
        exact hne (List.map_eq_nil_iff.mp hx)
      simp only [ppTurnsP, if_pos hc, h, Bool.false_eq_true, if_false,
        List.nil_append, List.cons_append, List.map_cons]
      rw [sjoin_cons_ne _ _ hmapne, ih _ [w.word] (by simp),
        sjoin_append text (w.word :: ws.map PPWord.word) ht (by simp)]
      simp
    · simp only [ppTurnsP, if_neg hc, List.map_cons]
      rw [ih _ (text ++ [w.word]) (by simp)]
      congr 1
      simp

/-- A word that does not open a new turn (no truthy label, or a label
rendering to the current turn speaker) leaves the turn count unchanged: it
is absorbed into the final turn. -/
theorem ppTurnsP_snoc_continue (cur : String) (text : List String)
    (ws : List PPWord) (w : PPWord) (ht : text ≠ [])
    (hw : ¬(truthyLabel w.speaker_label = true ∧
        ppName w.speaker_label ≠ (ppStateP cur text ws).1)) :
    (ppTurnsP cur text (ws ++ [w])).length
      = (ppTurnsP cur text ws).length := by
  rw [ppTurnsP_append ws [w] cur text ht]
  have hs2 := ppStateP_text_ne ws cur text ht
  have hie : ((ppStateP cur text ws).2 ++ [w.word]).isEmpty = false := by
    cases h2 : (ppStateP cur text ws).2 ++ [w.word] with
    | nil => simp at h2
    | cons a l => rfl
  have hlast : ppTurnsP (ppStateP cur text ws).1 (ppStateP cur text ws).2 [w]
      = [((ppStateP cur text ws).1,
          sjoin ((ppStateP cur text ws).2 ++ [w.word]))] := by
    simp only [ppTurnsP, if_neg hw]
    simp [ppTurnsP, hie]
  rw [hlast]
  have hne := ppTurnsP_ne_nil ws cur text ht
  have hpos : 0 < (ppTurnsP cur text ws).length := List.length_pos.mpr hne
  simp only [List.length_append, List.length_dropLast, List.length_cons,
    List.length_nil]
  omega

/-- A word with a truthy label rendering differently from the current turn
speaker opens exactly one new turn. -/
theorem ppTurnsP_snoc_break (cur : String) (text : List String)
    (ws : List PPWord) (w : PPWord) (ht : text ≠ [])
    (hw1 : truthyLabel w.speaker_label = true)
    (hw2 : ppName w.speaker_label ≠ (ppStateP cur text ws).1) :
    (ppTurnsP cur text (ws ++ [w])).length
      = (ppTurnsP cur text ws).length + 1 := by
  rw [ppTurnsP_append ws [w] cur text ht]
  have hs2 := ppStateP_text_ne ws cur text ht
  have hie : (ppStateP cur text ws).2.isEmpty = false := by
    cases h2 : (ppStateP cur text ws).2 with
    | nil => exact absurd h2 hs2
    | cons a l => rfl
  have hlast : ppTurnsP (ppStateP cur text ws).1 (ppStateP cur text ws).2 [w]
      = [((ppStateP cur text ws).1, sjoin (ppStateP cur text ws).2),
         (ppName w.speaker_label, sjoin [w.word])] := by
    simp only [ppTurnsP, if_pos (And.intro hw1 hw2), hie]
    simp [ppTurnsP]
  rw [hlast]
  have hne := ppTurnsP_ne_nil ws cur text ht
  have hpos : 0 < (ppTurnsP cur text ws).length := List.length_pos.mpr hne
  simp only [List.length_append, List.length_dropLast, List.length_cons,
    List.length_nil]
  omega

/-- The clock-independent core of an emitted turn: everything except the
wall-clock timestamp. -/
def ppCore (t : PPTurn) : String × String × Option Nat × String × Option Nat :=
  (t.speaker, t.text, t.start_time, t.language, t.confidence)

/-- Two runs of the aggregation loop under different clocks and different
tick counters emit the same turns up to timestamps. -/
theorem ppGo_core (c1 c2 : Nat → String) (lang : String) (conf : Option Nat) :
    ∀ (ws : List PPWord) (cur : String) (text : List String)
      (st0 : Option Nat) (k1 k2 : Nat),
      (ppGo c1 lang conf cur text st0 k1 ws).1.map ppCore
        = (ppGo c2 lang conf cur text st0 k2 ws).1.map ppCore := by
  intro ws
  induction ws with
  | nil =>
    intro cur text st0 k1 k2
    cases h : text.isEmpty <;> simp [ppGo, h, ppCore]
  | cons w ws ih =>
    intro cur text st0 k1 k2
    by_cases hc : truthyLabel w.speaker_label = true ∧ ppName w.speaker_label ≠ cur
    · cases ht : text.isEmpty with
      | true =>
        simp only [ppGo, ht, if_pos hc, if_true]
        exact ih _ _ _ _ _
      | false =>
        rcases hg1 : ppGo c1 lang conf (ppName w.speaker_label) [w.word]
            w.start_offset (k1 + 1) ws with ⟨t1, m1⟩
        rcases hg2 : ppGo c2 lang conf (ppName w.speaker_label) [w.word]
            w.start_offset (k2 + 1) ws with ⟨t2, m2⟩
        have hih := ih (ppName w.speaker_label) [w.word] w.start_offset
          (k1 + 1) (k2 + 1)
        rw [hg1, hg2] at hih
        simp only [ppGo, ht, if_pos hc, hg1, hg2, Bool.false_eq_true, if_false]
        simp only [List.map_cons]
        rw [hih]
        simp [ppCore]
    · simp only [ppGo, if_neg hc]
      exact ih _ _ _ _ _

/-- C7: bulk diarization aggregation is deterministic.  The only ambient
input of the aggregation is the wall clock used for the `timestamp`
decoration; two runs over the same word-level input under arbitrary clocks
and tick counters produce identical turn sequences up to that decoration —
in particular identical (speaker, text) sequences. -/
theorem C7_bulk_deterministic (c1 c2 : Nat → String) (k1 k2 : Nat)
    (r : PPResult) :
    (ppResult c1 k1 r).1.map ppCore = (ppResult c2 k2 r).1.map ppCore ∧
    (∀ (lang : String) (conf : Option Nat) (ws : List PPWord),
      (ppWords c1 lang conf k1 ws).1.map ppCore
        = (ppWords c2 lang conf k2 ws).1.map ppCore) ∧
    (∀ (lang : String) (conf : Option Nat) (ws : List PPWord),
      (ppWords c1 lang conf k1 ws).1.map ppProj
        = (ppWords c2 lang conf k2 ws).1.map ppProj) := by
  have hwords : ∀ (lang : String) (conf : Option Nat) (ws : List PPWord),
      (ppWords c1 lang conf k1 ws).1.map ppCore
        = (ppWords c2 lang conf k2 ws).1.map ppCore := by
    intro lang conf ws
    cases ws with
    | nil => rfl
    | cons w ws2 => exact ppGo_core c1 c2 lang conf ws2 _ _ _ _ _
  refine ⟨?_, hwords, ?_⟩
  · rcases r with ⟨alts, lc⟩
    cases alts with
    | nil => rfl
    | cons alt rest =>
      simp only [ppResult, List.head?_cons]
      by_cases hskip : alt.transcript = "" ∨ pyStrip alt.transcript = ""
      · rw [if_pos hskip, if_pos hskip]
      · rw [if_neg hskip, if_neg hskip]
        by_cases hwe : alt.words.isEmpty = true
        · rw [if_pos hwe, if_pos hwe]
          simp [ppCore]
        · rw [if_neg hwe, if_neg hwe]
          exact hwords _ _ _
  · intro lang conf ws
    cases ws with
    | nil => rfl
    | cons w ws2 =>
      have h1 := ppGo_proj c1 lang conf ws2 (ppName w.speaker_label)
        [w.word] w.start_offset k1
      have h2 := ppGo_proj c2 lang conf ws2 (ppName w.speaker_label)
        [w.word] w.start_offset k2
      exact h1.trans h2.symm

/-- C6 counterexample: in the bulk aggregator, the speaker label DOES
change from the first word (labelled 1) to the second word (unlabeled),
yet no new turn starts — the unlabeled word is absorbed into the current
turn, so one turn comes out where the claim as stated demands two. -/
theorem C6_counterexample :
    (ppWords (fun _ => "T") "en-US" none 0
        [⟨"hi", some "1", none⟩, ⟨"um", none, none⟩]).1.map ppProj
      = [("Speaker 1", "hi um")] ∧
    (⟨"hi", some "1", none⟩ : PPWord).speaker_label
      ≠ (⟨"um", none, none⟩ : PPWord).speaker_label ∧
    (ppWords (fun _ => "T") "en-US" none 0
        [⟨"hi", some "1", none⟩, ⟨"um", none, none⟩]).1.length ≠ 2 := by
  refine ⟨by decide, by decide, by decide⟩

/-- C6 amended: the bulk aggregator walks the words in order and starts a
new turn exactly when a word carries a truthy speaker label whose rendered
name differs from the CURRENT TURN speaker — the first word always opens a
turn, an unlabeled word always continues the current turn (even right after
labelled words), words of a turn are joined with single spaces, and the
final turn is closed at end of input.  A result with no word list at all
becomes one turn of the whole transcript under the placeholder
Speaker 1. -/
theorem C6_bulk_turns (clock : Nat → String) (lang : String)
    (conf : Option Nat) (k : Nat) :
    ((ppWords clock lang conf k
        [⟨"hi", some "1", none⟩, ⟨"there", some "1", none⟩,
         ⟨"ok", some "2", none⟩]).1.map ppProj
      = [("Speaker 1", "hi there"), ("Speaker 2", "ok")]) ∧
    (∀ (tr : String) (cf2 : Option Nat) (lc : Option String),
      tr ≠ "" → pyStrip tr ≠ "" →
      (ppResult clock k ⟨[⟨tr, [], cf2⟩], lc⟩).1.map ppProj
        = [("Speaker 1", tr)]) ∧
    (∀ (ws : List PPWord) (cur : String) (text : List String)
        (st0 : Option Nat) (k2 : Nat),
      (ppGo clock lang conf cur text st0 k2 ws).1.map ppProj
        = ppTurnsP cur text ws) ∧
    (∀ (w : PPWord) (ws : List PPWord),
      List.Chain' (fun a b => a.1 ≠ b.1)
        ((ppWords clock lang conf k (w :: ws)).1.map ppProj)) ∧
    (∀ (cur : String) (text : List String) (ws : List PPWord) (w : PPWord),
      text ≠ [] → truthyLabel w.speaker_label = false →
      (ppTurnsP cur text (ws ++ [w])).length
        = (ppTurnsP cur text ws).length) ∧
    (∀ (cur : String) (text : List String) (ws : List PPWord) (w : PPWord),
      text ≠ [] → truthyLabel w.speaker_label = true →
      ppName w.speaker_label ≠ (ppStateP cur text ws).1 →
      (ppTurnsP cur text (ws ++ [w])).length
        = (ppTurnsP cur text ws).length + 1) ∧
    (∀ (cur : String) (text : List String) (ws : List PPWord) (w : PPWord),
      text ≠ [] → truthyLabel w.speaker_label = true →
      ppName w.speaker_label = (ppStateP cur text ws).1 →
      (ppTurnsP cur text (ws ++ [w])).length
        = (ppTurnsP cur text ws).length) ∧
    (∀ (ws : List PPWord) (cur : String) (text : List String),
      text ≠ [] →
      sjoin ((ppTurnsP cur text ws).map Prod.snd)
        = sjoin (text ++ ws.map PPWord.word)) := by
  refine ⟨?_, ?_, fun ws cur text st0 k2 => ppGo_proj clock lang conf ws cur text st0 k2,
    ?_, ?_, ?_, ?_, fun ws cur text ht => ppTurnsP_text ws cur text ht⟩
  · have h := ppGo_proj clock lang conf
      [⟨"there", some "1", none⟩, ⟨"ok", some "2", none⟩]
      "Speaker 1" ["hi"] none k
    exact h.trans (by decide)
  · intro tr cf2 lc h1 h2
    simp [ppResult, h1, h2, ppProj]
  · intro w ws
    have h := ppGo_proj clock lang conf ws (ppName w.speaker_label)
      [w.word] w.start_offset k
    have hchain := ppTurnsP_chain ws (ppName w.speaker_label) [w.word] (by simp)
    exact h ▸ hchain
  · intro cur text ws w ht hfalse
    apply ppTurnsP_snoc_continue cur text ws w ht
    rintro ⟨h1, -⟩
    rw [hfalse] at h1
    cases h1
  · intro cur text ws w ht h1 h2
    exact ppTurnsP_snoc_break cur text ws w ht h1 h2
  · intro cur text ws w ht h1 h2
    apply ppTurnsP_snoc_continue cur text ws w ht
    rintro ⟨-, hne⟩
    exact hne h2

/-- Witness for the amended C6 statement: the canonical three-word example
and an unlabeled-word absorption at a concrete state. -/
theorem C6_bulk_turns_witness :
    ((ppWords (fun _ => "T") "en-US" none 0
        [⟨"hi", some "1", none⟩, ⟨"there", some "1", none⟩,
         ⟨"ok", some "2", none⟩]).1.map ppProj
      = [("Speaker 1", "hi there"), ("Speaker 2", "ok")]) ∧
    (ppTurnsP "Speaker 1" ["hi"] ([] ++ [⟨"um", none, none⟩])).length
      = (ppTurnsP "Speaker 1" ["hi"] []).length := by
  have h := C6_bulk_turns (fun _ => "T") "en-US" none 0
  exact ⟨h.1, h.2.2.2.2.1 "Speaker 1" ["hi"] [] ⟨"um", none, none⟩
    (by decide) (by decide)⟩
